import Mathlib

/-!
Verification of the `blockchain_consensus` package: a shallow embedding of
its block/chain data model and the four consensus protocols (PoW, PoS,
DPoS, PBFT), together with proofs of the specification's claims.

Modelling conventions, used uniformly below:
* Python `int` is modelled as `Int` (or `Nat` where the source only ever
  holds non-negative values); arithmetic matches Python's arbitrary
  precision integers.
* Python `float` fields (`timestamp`, `amount`, stake and vote tallies)
  enter the algorithms only as opaque data: the hash functions consume
  their decimal string rendering and nothing else computes with them, so
  they are modelled as the `String` rendering (for hashed fields) or `Rat`
  (for stake / vote tallies, which the verified claims never compute with).
* `random.*` draws are modelled as explicit oracle arguments (an index into
  the candidate list, a sampled subset, a clock string), making the
  functions deterministic in the oracle.
* The unbounded `while True` mining loop is modelled with an explicit fuel
  argument; `none` means the loop did not finish within the fuel.
* SHA-256 is implemented for real (FIPS 180-4) over the UTF-8 bytes of the
  input string, exactly as `hashlib.sha256(data.encode()).hexdigest()`.
-/

/-! ## SHA-256 -/

/-- 2^32, the word modulus of SHA-256. -/
def M32 : Nat := 4294967296

/-- Right rotation of a 32-bit word. -/
def rotr32 (n x : Nat) : Nat :=
  ((x >>> n) ||| (x <<< (32 - n))) % M32

/-- SHA-256 small sigma 0. -/
def sig0 (x : Nat) : Nat := (rotr32 7 x) ^^^ (rotr32 18 x) ^^^ (x >>> 3)

/-- SHA-256 small sigma 1. -/
def sig1 (x : Nat) : Nat := (rotr32 17 x) ^^^ (rotr32 19 x) ^^^ (x >>> 10)

/-- SHA-256 big sigma 0. -/
def bsig0 (x : Nat) : Nat := (rotr32 2 x) ^^^ (rotr32 13 x) ^^^ (rotr32 22 x)

/-- SHA-256 big sigma 1. -/
def bsig1 (x : Nat) : Nat := (rotr32 6 x) ^^^ (rotr32 11 x) ^^^ (rotr32 25 x)

/-- SHA-256 choice function. -/
def chFn (e f g : Nat) : Nat := (e &&& f) ^^^ ((e ^^^ (M32 - 1)) &&& g)

/-- SHA-256 majority function. -/
def majFn (a b c : Nat) : Nat := (a &&& b) ^^^ (a &&& c) ^^^ (b &&& c)

/-- The 64 SHA-256 round constants. -/
def sha256K : List Nat :=
  [1116352408, 1899447441, 3049323471, 3921009573, 961987163, 1508970993,
   2453635748, 2870763221, 3624381080, 310598401, 607225278, 1426881987,
   1925078388, 2162078206, 2614888103, 3248222580, 3835390401, 4022224774,
   264347078, 604807628, 770255983, 1249150122, 1555081692, 1996064986,
   2554220882, 2821834349, 2952996808, 3210313671, 3336571891, 3584528711,
   113926993, 338241895, 666307205, 773529912, 1294757372, 1396182291,
   1695183700, 1986661051, 2177026350, 2456956037, 2730485921, 2820302411,
   3259730800, 3345764771, 3516065817, 3600352804, 4094571909, 275423344,
   430227734, 506948616, 659060556, 883997877, 958139571, 1322822218,
   1537002063, 1747873779, 1955562222, 2024104815, 2227730452, 2361852424,
   2428436474, 2756734187, 3204031479, 3329325298]

/-- The SHA-256 initial hash value, as a list of eight 32-bit words. -/
def sha256H0 : List Nat :=
  [1779033703, 3144134277, 1013904242, 2773480762,
   1359893119, 2600822924, 528734635, 1541459225]

/-- One step of the message-schedule extension: appends word `w[t]` for
`t = w.length` (valid for `16 ≤ t`). -/
def schedStep (w : List Nat) : List Nat :=
  w ++ [(sig1 (w.getD (w.length - 2) 0) + w.getD (w.length - 7) 0 +
         sig0 (w.getD (w.length - 15) 0) + w.getD (w.length - 16) 0) % M32]

/-- Extend 16 message words to the full 64-word schedule. -/
def schedule (w16 : List Nat) : List Nat :=
  (List.range 48).foldl (fun w _ => schedStep w) w16

/-- Working state of the SHA-256 compression function. -/
structure Sha256State where
  a : Nat
  b : Nat
  c : Nat
  d : Nat
  e : Nat
  f : Nat
  g : Nat
  h : Nat
deriving DecidableEq, Repr

/-- One SHA-256 compression round. -/
def sha256Round (st : Sha256State) (kw : Nat × Nat) : Sha256State :=
  let t1 := (st.h + bsig1 st.e + chFn st.e st.f st.g + kw.1 + kw.2) % M32
  let t2 := (bsig0 st.a + majFn st.a st.b st.c) % M32
  { a := (t1 + t2) % M32, b := st.a, c := st.b, d := st.c,
    e := (st.d + t1) % M32, f := st.e, g := st.f, h := st.g }

/-- Convert a list of eight words to a state. -/
def toState (hs : List Nat) : Sha256State :=
  { a := hs.getD 0 0, b := hs.getD 1 0, c := hs.getD 2 0, d := hs.getD 3 0,
    e := hs.getD 4 0, f := hs.getD 5 0, g := hs.getD 6 0, h := hs.getD 7 0 }

/-- Compress one 64-byte block (given as 16 big-endian words) into the
running hash value. -/
def sha256Compress (hs : List Nat) (block16 : List Nat) : List Nat :=
  let w := schedule block16
  let st := (sha256K.zip w).foldl sha256Round (toState hs)
  [(hs.getD 0 0 + st.a) % M32, (hs.getD 1 0 + st.b) % M32,
   (hs.getD 2 0 + st.c) % M32, (hs.getD 3 0 + st.d) % M32,
   (hs.getD 4 0 + st.e) % M32, (hs.getD 5 0 + st.f) % M32,
   (hs.getD 6 0 + st.g) % M32, (hs.getD 7 0 + st.h) % M32]

/-- Big-endian bytes of a 64-bit value. -/
def be64 (n : Nat) : List Nat :=
  (List.range 8).map (fun i => (n >>> (8 * (7 - i))) % 256)

/-- SHA-256 padding: append `0x80`, zero bytes up to 56 mod 64, then the
bit length as 8 big-endian bytes. -/
def sha256Pad (msg : List Nat) : List Nat :=
  let padZeros := (119 - (msg.length % 64)) % 64
  msg ++ [0x80] ++ List.replicate padZeros 0 ++ be64 (msg.length * 8)

/-- Split a padded message into 16-word (64-byte) big-endian blocks. -/
def sha256Blocks (padded : List Nat) : List (List Nat) :=
  (List.range (padded.length / 64)).map (fun i =>
    (List.range 16).map (fun j =>
      let base := 64 * i + 4 * j
      padded.getD base 0 * 16777216 + padded.getD (base + 1) 0 * 65536 +
      padded.getD (base + 2) 0 * 256 + padded.getD (base + 3) 0))

/-- SHA-256 digest of a byte list, as 32 bytes. -/
def sha256Bytes (msg : List Nat) : List Nat :=
  let final := (sha256Blocks (sha256Pad msg)).foldl sha256Compress sha256H0
  final.flatMap (fun w => [(w >>> 24) % 256, (w >>> 16) % 256, (w >>> 8) % 256, w % 256])

/-- Lower-case hex digit for a value below 16. -/
def hexDigit (n : Nat) : Char :=
  if n < 10 then Char.ofNat (48 + n) else Char.ofNat (87 + n)

/-- Lower-case hex rendering of a byte list. -/
def bytesToHex (bytes : List Nat) : String :=
  String.mk (bytes.flatMap (fun b => [hexDigit (b / 16), hexDigit (b % 16)]))

/-- UTF-8 encoding of one character, as Python's `str.encode()` produces. -/
def utf8Bytes (c : Char) : List Nat :=
  let n := c.toNat
  if n < 0x80 then [n]
  else if n < 0x800 then [0xc0 + n / 64, 0x80 + n % 64]
  else if n < 0x10000 then [0xe0 + n / 4096, 0x80 + (n / 64) % 64, 0x80 + n % 64]
  else [0xf0 + n / 262144, 0x80 + (n / 4096) % 64, 0x80 + (n / 64) % 64, 0x80 + n % 64]

/-- `hashlib.sha256(s.encode()).hexdigest()`: the lower-case hex SHA-256
digest of the UTF-8 bytes of `s`. -/
def sha256hex (s : String) : String :=
  bytesToHex (sha256Bytes (s.data.flatMap utf8Bytes))

set_option maxRecDepth 1000000

/-! ## Core data model (`core/transaction.py`, `core/block.py`, `core/chain.py`) -/

/-- Python's `x or y` on an optional string: `y` when `x` is `None` or the
empty string (falsy), `x`'s value otherwise. -/
def strOr (o : Option String) (alt : String) : String :=
  match o with
  | none => alt
  | some s => if s = "" then alt else s

/-- Python's `f"{v}"` on an `Optional[str]`: `None` renders as `"None"`. -/
def pyStrOpt (o : Option String) : String :=
  match o with
  | none => "None"
  | some s => s

/-- `Transaction` (`core/transaction.py`): a value transfer.  `amount` and
`timestamp` are Python floats used only through their decimal string
rendering inside `compute_hash`, so they are modelled as that rendering. -/
structure Transaction where
  sender : String
  recipient : String
  amount : String
  timestamp : String
  tx_id : Option String
deriving DecidableEq, Repr

/-- `Transaction.compute_hash`: SHA-256 of
`f"{sender}{recipient}{amount}{timestamp}"`. -/
def Transaction.compute_hash (t : Transaction) : String :=
  sha256hex (t.sender ++ t.recipient ++ t.amount ++ t.timestamp)

/-- `Block` (`core/block.py`).  `timestamp` is a Python float used only
through its decimal string rendering inside `compute_hash`, so it is
modelled as that rendering. -/
structure Block where
  index : Int
  timestamp : String
  transactions : List Transaction
  previous_hash : String
  nonce : Int
  validator : Option String
  hash : Option String
deriving DecidableEq, Repr

/-- `Block.compute_hash`: SHA-256 of the concatenation of `index`,
`timestamp`, each transaction's id (`tx.tx_id or tx.compute_hash()`),
`previous_hash`, `nonce` and `validator`, in that order. -/
def Block.compute_hash (b : Block) : String :=
  let tx_data := String.join (b.transactions.map (fun t => strOr t.tx_id t.compute_hash))
  sha256hex (toString b.index ++ b.timestamp ++ tx_data ++
             b.previous_hash ++ toString b.nonce ++ pyStrOpt b.validator)

/-- `Block.mine(difficulty)`: repeatedly increment `nonce` and recompute the
hash until it starts with `difficulty` `'0'` characters, then store and
return that hash.  The source loop is `while True`; the extra `fuel`
argument bounds it, `none` meaning the loop has not finished in `fuel`
iterations. -/
def Block.mine : Nat → Nat → Block → Option (Block × String)
  | 0, _, _ => none
  | fuel + 1, difficulty, b =>
    let candidate := b.compute_hash
    if (List.replicate difficulty '0').isPrefixOf candidate.data then
      some ({ b with hash := some candidate }, candidate)
    else
      Block.mine fuel difficulty { b with nonce := b.nonce + 1 }

/-- `Block.genesis()`: the fixed first block, with its hash precomputed. -/
def Block.genesis : Block :=
  let b : Block :=
    { index := 0, timestamp := "0.0", transactions := [],
      previous_hash := String.mk (List.replicate 64 '0'),
      nonce := 0, validator := some "genesis", hash := none }
  { b with hash := some b.compute_hash }

/-- `Blockchain` (`core/chain.py`): the block list, pending pool and base
difficulty. -/
structure Blockchain where
  chain : List Block
  pending_transactions : List Transaction
  difficulty : Int
deriving DecidableEq, Repr

/-- `Blockchain.model_post_init`: a chain constructed with an empty block
list receives the genesis block, so every `Blockchain` the program builds
has a non-empty `chain`. -/
def Blockchain.init (chain : List Block) (pending : List Transaction)
    (difficulty : Int) : Blockchain :=
  if chain.isEmpty then
    { chain := [Block.genesis], pending_transactions := pending, difficulty := difficulty }
  else
    { chain := chain, pending_transactions := pending, difficulty := difficulty }

/-- `Blockchain.latest_block`: the last block.  The source indexes
`chain[-1]`; the default for the empty list is never reached because every
constructed chain is non-empty (theorems that need this carry the
`chain ≠ []` invariant as a hypothesis). -/
def Blockchain.latest_block (c : Blockchain) : Block :=
  c.chain.getLastD Block.genesis

/-- `Blockchain.height`: the length of the block list. -/
def Blockchain.height (c : Blockchain) : Nat :=
  c.chain.length

/-- `Blockchain.add_block`: the admission gate.  Returns the (possibly
extended) chain and the boolean result.  Note the Python comparison
`block.previous_hash != latest.hash` compares a `str` to an
`Optional[str]`, which is unequal whenever the latter is `None`. -/
def Blockchain.add_block (c : Blockchain) (b : Block) : Blockchain × Bool :=
  if some b.previous_hash ≠ c.latest_block.hash then (c, false)
  else if b.hash = none then (c, false)
  else if b.hash ≠ some b.compute_hash then (c, false)
  else ({ c with chain := c.chain ++ [b] }, true)

/-- `Blockchain.create_next_block`: build the next unmined draft block.
`now` is the wall-clock reading (`time.time()` rendered as a string) used
as the draft's timestamp.  When `transactions` is `none` the pending pool
is drained into the block and cleared; otherwise the pool is untouched. -/
def Blockchain.create_next_block (c : Blockchain) (now : String)
    (transactions : Option (List Transaction)) (validator : Option String) :
    Blockchain × Block :=
  let txs := match transactions with
    | some t => t
    | none => c.pending_transactions
  let b : Block :=
    { index := (c.height : Int), timestamp := now, transactions := txs,
      previous_hash := strOr c.latest_block.hash "", nonce := 0,
      validator := validator, hash := none }
  match transactions with
  | some _ => (c, b)
  | none => ({ c with pending_transactions := [] }, b)

/-- `Blockchain.is_valid`: for every index `i` in `range(1, len(chain))`,
block `i`'s stored hash must equal its recomputed hash and its
`previous_hash` must equal block `i-1`'s stored hash (a `str` versus
`Optional[str]` comparison, as in `add_block`). -/
def Blockchain.is_valid (c : Blockchain) : Bool :=
  (List.range' 1 (c.chain.length - 1)).all (fun i =>
    let current := c.chain.getD i Block.genesis
    let previous := c.chain.getD (i - 1) Block.genesis
    (current.hash == some current.compute_hash) &&
    (previous.hash == some current.previous_hash))

/-! ## Consensus contract (`consensus/base.py`) -/

/-- `ConsensusResult`: the outcome of one consensus round.  The free-text
`message` fields of the source interpolate wall-clock timings and
truncated addresses; no verified claim mentions them, so they are carried
as short fixed summaries. -/
structure ConsensusResult where
  success : Bool
  block : Option Block := none
  proposer : Option String := none
  rounds : Nat := 1
  message : String := ""
deriving DecidableEq, Repr

/-! ## Proof of Work (`consensus/pow.py`) -/

/-- `ProofOfWork`: fixed mining difficulty. -/
structure ProofOfWork where
  difficulty : Nat
deriving DecidableEq, Repr

/-- `ProofOfWork.run_round`.  `pick` is the oracle for
`random.choice(nodes)` (the chosen element is `nodes[pick % len nodes]`),
`now` the clock reading for the draft block, and `fuel` bounds the
unbounded mining loop: `none` means `mine` has not terminated within
`fuel` iterations, in which case the Python call has not returned. -/
def ProofOfWork.run_round (p : ProofOfWork) (fuel pick : Nat) (now : String)
    (blockchain : Blockchain) (transactions : List Transaction)
    (nodes : List String) : Option (Blockchain × ConsensusResult) :=
  if nodes.isEmpty then
    some (blockchain, { success := false, message := "No miners available." })
  else
    let miner := nodes.getD (pick % nodes.length) ""
    let cb := blockchain.create_next_block now (some transactions) (some miner)
    let bc1 := cb.1
    let block := cb.2
    match Block.mine fuel p.difficulty block with
    | none => none
    | some (mined, _) =>
      let ab := bc1.add_block mined
      let bc2 := ab.1
      let added := ab.2
      some (bc2, { success := added, block := some mined, proposer := some miner,
                   rounds := 1, message := "miner found nonce" })

/-! ## Proof of Stake (`consensus/pos.py`) -/

/-- `StakeInfo`: stake and coin age of one validator.  `stake` is a Python
float; it is modelled as a rational since no verified claim computes with
it. -/
structure StakeInfo where
  address : String
  stake : Rat
  age : Nat
deriving DecidableEq, Repr

/-- The selection weight `stake * (1 + age_factor * age)` from
`_select_validator`. -/
def effectiveWeight (age_factor : Rat) (info : StakeInfo) : Rat :=
  info.stake * (1 + age_factor * (info.age : Rat))

/-- `ProofOfStake`: validator table (dict in insertion order) and the
coin-age factor. -/
structure ProofOfStake where
  validators : List StakeInfo
  age_factor : Rat
deriving DecidableEq, Repr

/-- `ProofOfStake._select_validator`: the source draws one address from the
validator list at random (uniformly when the total effective weight is
zero, weighted by `effectiveWeight` otherwise).  Both branches return an
element of the address list; the draw itself is external randomness and is
modelled by the index oracle `pick`. -/
def ProofOfStake.select_validator (p : ProofOfStake) (pick : Nat) : String :=
  let addresses := p.validators.map (fun i => i.address)
  addresses.getD (pick % addresses.length) ""

/-- `ProofOfStake.run_round`.  `pick` is the oracle for the random draw in
`_select_validator`, `now` the clock reading for the draft block. -/
def ProofOfStake.run_round (p : ProofOfStake) (pick : Nat) (now : String)
    (blockchain : Blockchain) (transactions : List Transaction)
    (nodes : List String) : ProofOfStake × Blockchain × ConsensusResult :=
  if p.validators.isEmpty then
    (p, blockchain, { success := false, message := "No validators registered." })
  else
    let proposer := p.select_validator pick
    let cb := blockchain.create_next_block now (some transactions) (some proposer)
    let bc1 := cb.1
    let draft := cb.2
    let block := { draft with hash := some draft.compute_hash }
    let ab := bc1.add_block block
    let bc2 := ab.1
    let added := ab.2
    let p1 :=
      if added then
        { p with validators := p.validators.map (fun v =>
            if v.address = proposer then { v with age := 0 }
            else { v with age := v.age + 1 }) }
      else p
    (p1, bc2, { success := added, block := some block, proposer := some proposer,
                rounds := 1, message := "validator selected" })

/-! ## Delegated Proof of Stake (`consensus/dpos.py`) -/

/-- `Delegate`: one DPoS candidate.  `votes` is a Python float, modelled as
a rational since no verified claim computes with it. -/
structure Delegate where
  address : String
  votes : Rat
  blocks_produced : Nat
deriving DecidableEq, Repr

/-- `DelegatedProofOfStake`: candidate table, elected size, the fixed
shuffled active-delegate order and the rotation cursor `_round_index`. -/
structure DelegatedProofOfStake where
  candidates : List Delegate
  num_delegates : Nat
  active_delegates : List String
  round_index : Nat
deriving DecidableEq, Repr

/-- `DelegatedProofOfStake._current_delegate`: `None` when no delegates are
active, otherwise the delegate at `round_index mod len(active_delegates)`. -/
def DelegatedProofOfStake.current_delegate (p : DelegatedProofOfStake) :
    Option String :=
  if p.active_delegates.isEmpty then none
  else some (p.active_delegates.getD (p.round_index % p.active_delegates.length) "")

/-- `DelegatedProofOfStake.run_round`.  `now` is the clock reading for the
draft block. -/
def DelegatedProofOfStake.run_round (p : DelegatedProofOfStake) (now : String)
    (blockchain : Blockchain) (transactions : List Transaction)
    (nodes : List String) : DelegatedProofOfStake × Blockchain × ConsensusResult :=
  match p.current_delegate with
  | none => (p, blockchain, { success := false, message := "No active delegates elected." })
  | some delegate =>
    let cb := blockchain.create_next_block now (some transactions) (some delegate)
    let bc1 := cb.1
    let draft := cb.2
    let block := { draft with hash := some draft.compute_hash }
    let ab := bc1.add_block block
    let bc2 := ab.1
    let added := ab.2
    let p1 :=
      if added = true ∧ delegate ∈ p.candidates.map (fun d => d.address) then
        { p with candidates := p.candidates.map (fun d =>
            if d.address = delegate then { d with blocks_produced := d.blocks_produced + 1 }
            else d) }
      else p
    let p2 := { p1 with round_index := p.round_index + 1 }
    (p2, bc2, { success := added, block := some block, proposer := some delegate,
                rounds := 1, message := "delegate produced block" })

/-! ## Practical Byzantine Fault Tolerance (`consensus/pbft.py`) -/

/-- PBFT message types. -/
inductive MessageType where
  | PRE_PREPARE
  | PREPARE
  | COMMIT
deriving DecidableEq, Repr

/-- `PBFTMessage`: one protocol message. -/
structure PBFTMessage where
  msg_type : MessageType
  sender : String
  block_hash : String
  view : Nat
deriving DecidableEq, Repr

/-- `PBFTNode`: per-node round state.  The Python `Set[str]` received-sets
are modelled as duplicate-free lists built by `setAdd`; only membership
and cardinality are ever used. -/
structure PBFTNode where
  address : String
  is_byzantine : Bool
  prepares_received : List String
  commits_received : List String
  prepared : Bool
  committed : Bool
deriving DecidableEq, Repr

/-- `set.add`: insert a sender unless already present. -/
def setAdd (s : List String) (x : String) : List String :=
  if x ∈ s then s else s ++ [x]

/-- `PracticalBFT`: the fixed validator list, the Byzantine count, the view
counter and the per-node state table (a dict in insertion order over the
distinct node addresses). -/
structure PracticalBFT where
  node_list : List String
  byzantine_count : Nat
  view : Nat
  pbft_nodes : List PBFTNode
deriving DecidableEq, Repr

/-- `PracticalBFT.__init__`.  Raises (modelled as `Except.error`) when the
requested Byzantine count exceeds `floor((n - 1) / 3)` — Python floor
division, hence the `Int.fdiv`.  `byzSample` is the oracle for
`random.sample(nodes, byzantine_nodes)`, the randomly drawn Byzantine
subset. -/
def PracticalBFT.init (nodes : List String) (byzantine_nodes : Nat)
    (byzSample : List String) : Except String PracticalBFT :=
  if (byzantine_nodes : Int) > ((nodes.length : Int) - 1).fdiv 3 then
    Except.error "PBFT tolerates at most f=floor((n-1)/3) Byzantine nodes."
  else
    Except.ok
      { node_list := nodes, byzantine_count := byzantine_nodes, view := 0,
        pbft_nodes := nodes.eraseDups.map (fun addr =>
          { address := addr, is_byzantine := byzSample.contains addr,
            prepares_received := [], commits_received := [],
            prepared := false, committed := false }) }

/-- `PracticalBFT._quorum`: `2 f + 1`. -/
def PracticalBFT.quorum (p : PracticalBFT) : Nat :=
  2 * p.byzantine_count + 1

/-- `PracticalBFT._reset_round`: clear the per-round state of every node. -/
def PracticalBFT.reset_round (p : PracticalBFT) : PracticalBFT :=
  { p with pbft_nodes := p.pbft_nodes.map (fun n =>
      { n with prepares_received := [], commits_received := [],
               prepared := false, committed := false }) }

/-- `PracticalBFT._phase_pre_prepare`: the leader's single PRE_PREPARE
message. -/
def PracticalBFT.phase_pre_prepare (p : PracticalBFT) (leader : String)
    (block : Block) : List PBFTMessage :=
  [{ msg_type := MessageType.PRE_PREPARE, sender := leader,
     block_hash := block.compute_hash, view := p.view }]

/-- `PracticalBFT.phase_prepare`: every non-Byzantine node emits a PREPARE
for the proposed hash; Byzantine nodes abstain. -/
def PracticalBFT.phase_prepare (p : PracticalBFT) (block_hash : String) :
    List PBFTMessage :=
  (p.pbft_nodes.filter (fun n => !n.is_byzantine)).map (fun n =>
    { msg_type := MessageType.PREPARE, sender := n.address,
      block_hash := block_hash, view := p.view })

/-- `PracticalBFT.phase_commit`: every non-Byzantine node whose
received-PREPARE set reached the quorum marks itself prepared and emits a
COMMIT.  Returns the updated node table together with the messages. -/
def PracticalBFT.phase_commit (p : PracticalBFT) (block_hash : String) :
    PracticalBFT × List PBFTMessage :=
  let updated := { p with pbft_nodes := p.pbft_nodes.map (fun n =>
      if !n.is_byzantine && decide (p.quorum ≤ n.prepares_received.length) then
        { n with prepared := true }
      else n) }
  let msgs := (p.pbft_nodes.filter (fun n =>
      !n.is_byzantine && decide (p.quorum ≤ n.prepares_received.length))).map (fun n =>
    { msg_type := MessageType.COMMIT, sender := n.address,
      block_hash := block_hash, view := p.view })
  (updated, msgs)

/-- The broadcast loop `for msg in prepare_msgs: for node: node.prepares_received.add(msg.sender)`
of `run_round`, as a function of the node table. -/
def distributePrepares (msgs : List PBFTMessage) (ns : List PBFTNode) : List PBFTNode :=
  ns.map (fun (node : PBFTNode) =>
    { node with prepares_received :=
        msgs.foldl (fun s (m : PBFTMessage) => setAdd s m.sender) node.prepares_received })

/-- The broadcast loop for COMMIT messages of `run_round`. -/
def distributeCommits (msgs : List PBFTMessage) (ns : List PBFTNode) : List PBFTNode :=
  ns.map (fun (node : PBFTNode) =>
    { node with commits_received :=
        msgs.foldl (fun s (m : PBFTMessage) => setAdd s m.sender) node.commits_received })

/-- The finalization tally of `run_round`: the number of non-Byzantine
nodes whose received-COMMIT count reached the quorum. -/
def committedCount (q : Nat) (ns : List PBFTNode) : Nat :=
  (ns.filter (fun (node : PBFTNode) =>
    decide (q ≤ node.commits_received.length) && !node.is_byzantine)).length

/-- `PracticalBFT.run_round`.  `now` is the clock reading for the draft
block.  The three phases are the synchronous passes of the source: all
emitted PREPAREs, then all emitted COMMITs, are added to every node's
received-set, and the block is admitted when the number of non-Byzantine
nodes whose received-COMMIT count reached the quorum itself reaches the
quorum. -/
def PracticalBFT.run_round (p0 : PracticalBFT) (now : String)
    (blockchain : Blockchain) (transactions : List Transaction)
    (nodes : List String) : PracticalBFT × Blockchain × ConsensusResult :=
  let p := p0.reset_round
  let n := p.node_list.length
  let leader := p.node_list.getD (p.view % n) ""
  let cb := blockchain.create_next_block now (some transactions) (some leader)
  let bc1 := cb.1
  let draft := cb.2
  let block := { draft with hash := some draft.compute_hash }
  let block_hash := draft.compute_hash
  let _pre_prepare_msgs := p.phase_pre_prepare leader block
  let prepare_msgs := p.phase_prepare block_hash
  let p2 := { p with pbft_nodes := distributePrepares prepare_msgs p.pbft_nodes }
  let pc := p2.phase_commit block_hash
  let p3 := pc.1
  let commit_msgs := pc.2
  let p4 := { p3 with pbft_nodes := distributeCommits commit_msgs p3.pbft_nodes }
  let committed_count := committedCount p4.quorum p4.pbft_nodes
  let consensus_reached := p4.quorum ≤ committed_count
  if consensus_reached then
    let ab := bc1.add_block block
    ({ p4 with view := p.view + 1 }, ab.1,
     { success := ab.2, block := some block, proposer := some leader,
       rounds := 3, message := "PBFT consensus reached" })
  else
    ({ p4 with view := p.view + 1 }, bc1,
     { success := false, proposer := some leader,
       rounds := 3, message := "PBFT failed to reach consensus" })

/-- The leader `run_round` selects: `node_list[view % n]`. -/
def PracticalBFT.leader (p : PracticalBFT) : String :=
  p.node_list.getD (p.view % p.node_list.length) ""

/-- The candidate block `run_round` builds and (if consensus is reached)
submits to the admission gate. -/
def PracticalBFT.candidate (p : PracticalBFT) (now : String)
    (blockchain : Blockchain) (transactions : List Transaction) : Block :=
  let draft := (blockchain.create_next_block now (some transactions) (some p.leader)).2
  { draft with hash := some draft.compute_hash }

/-- The outcome of the three phases as a function of the protocol state
alone: whether the finalization tally reaches the quorum.  The messages'
block hash does not influence the tally (only senders are collected), so
this message-free distillation of the phases decides consensus; the lemma
`pbft_run_round_result` proves it equivalent to what `run_round` does. -/
def PracticalBFT.consensus_check (p0 : PracticalBFT) : Bool :=
  let p := p0.reset_round
  let p2 := { p with pbft_nodes := distributePrepares (p.phase_prepare "") p.pbft_nodes }
  let pc := p2.phase_commit ""
  let p4 := { pc.1 with pbft_nodes := distributeCommits pc.2 pc.1.pbft_nodes }
  decide (p4.quorum ≤ committedCount p4.quorum p4.pbft_nodes)

/-- Creating a block with an explicit transaction list leaves the chain
value untouched. -/
theorem create_next_block_fst (c : Blockchain) (now : String)
    (txs : List Transaction) (v : Option String) :
    (c.create_next_block now (some txs) v).1 = c := rfl

/-! ### Message-independence of the PBFT tally -/

/-- PREPARE messages carry exactly the honest nodes' addresses as senders. -/
theorem phase_prepare_senders (p : PracticalBFT) (bh : String) :
    (p.phase_prepare bh).map PBFTMessage.sender =
      (p.pbft_nodes.filter (fun n => !n.is_byzantine)).map PBFTNode.address := by
  unfold PracticalBFT.phase_prepare
  rw [List.map_map]
  rfl

/-- COMMIT messages carry exactly the prepared honest nodes' addresses as
senders. -/
theorem phase_commit_senders (p : PracticalBFT) (bh : String) :
    ((p.phase_commit bh).2).map PBFTMessage.sender =
      (p.pbft_nodes.filter (fun n =>
        !n.is_byzantine && decide (p.quorum ≤ n.prepares_received.length))).map
        PBFTNode.address := by
  unfold PracticalBFT.phase_commit
  rw [List.map_map]
  rfl

/-- The node-state update of `phase_commit` does not depend on the message
hash. -/
theorem phase_commit_fst (p : PracticalBFT) (bh : String) :
    (p.phase_commit bh).1 =
      { p with pbft_nodes := p.pbft_nodes.map (fun n =>
          if !n.is_byzantine && decide (p.quorum ≤ n.prepares_received.length) then
            { n with prepared := true }
          else n) } := rfl

/-- Distributing the PREPARE messages only uses their senders. -/
theorem distributePrepares_phase_prepare (p : PracticalBFT) (bh : String)
    (ns : List PBFTNode) :
    distributePrepares (p.phase_prepare bh) ns =
      ns.map (fun (node : PBFTNode) =>
        { node with prepares_received :=
            ((p.pbft_nodes.filter (fun n => !n.is_byzantine)).map
              PBFTNode.address).foldl setAdd node.prepares_received }) := by
  unfold distributePrepares
  refine List.map_congr_left fun n hn => ?_
  rw [← phase_prepare_senders p bh, List.foldl_map]

/-- Distributing the COMMIT messages only uses their senders. -/
theorem distributeCommits_phase_commit (p : PracticalBFT) (bh : String)
    (ns : List PBFTNode) :
    distributeCommits ((p.phase_commit bh).2) ns =
      ns.map (fun (node : PBFTNode) =>
        { node with commits_received :=
            ((p.pbft_nodes.filter (fun n =>
                !n.is_byzantine && decide (p.quorum ≤ n.prepares_received.length))).map
              PBFTNode.address).foldl setAdd node.commits_received }) := by
  unfold distributeCommits
  refine List.map_congr_left fun n hn => ?_
  rw [← phase_commit_senders p bh, List.foldl_map]

/-- `consensus_check` decides exactly the condition `run_round` tests,
whatever block hash circulates in the messages. -/
theorem consensus_check_spec (p0 : PracticalBFT) (bh : String) :
    p0.consensus_check = true ↔
      (let p := p0.reset_round
       let p2 := { p with pbft_nodes := distributePrepares (p.phase_prepare bh) p.pbft_nodes }
       let pc := p2.phase_commit bh
       let p4 := { pc.1 with pbft_nodes := distributeCommits pc.2 pc.1.pbft_nodes }
       p4.quorum ≤ committedCount p4.quorum p4.pbft_nodes) := by
  unfold PracticalBFT.consensus_check
  simp only [distributePrepares_phase_prepare, phase_commit_fst,
    distributeCommits_phase_commit, PracticalBFT.quorum, decide_eq_true_eq]

/-- What one PBFT round returns, as a function of `consensus_check`: the
chain and the result fields relevant to the claims.  (The protocol-state
component is the phase bookkeeping plus the unconditional view bump and is
not needed by any claim.) -/
theorem pbft_run_round_result (p0 : PracticalBFT) (now : String)
    (bc : Blockchain) (txs : List Transaction) (ns : List String) :
    (p0.run_round now bc txs ns).2.2.block =
      (if p0.consensus_check = true then some (p0.candidate now bc txs) else none) ∧
    (p0.run_round now bc txs ns).2.2.success =
      (p0.consensus_check && (bc.add_block (p0.candidate now bc txs)).2) ∧
    (p0.run_round now bc txs ns).2.2.rounds = 3 ∧
    (p0.run_round now bc txs ns).2.1 =
      (if p0.consensus_check = true then (bc.add_block (p0.candidate now bc txs)).1 else bc) := by
  have hspec := consensus_check_spec p0
    ((bc.create_next_block now (some txs)
      (some (p0.reset_round.node_list.getD
        (p0.reset_round.view % p0.reset_round.node_list.length) ""))).2.compute_hash)
  unfold PracticalBFT.run_round
  dsimp only
  cases hb : p0.consensus_check with
  | false =>
    rw [hb] at hspec
    simp only [Bool.false_eq_true, false_iff] at hspec
    rw [if_neg hspec]
    simp [PracticalBFT.candidate, PracticalBFT.leader, PracticalBFT.reset_round,
      create_next_block_fst]
  | true =>
    rw [hb] at hspec
    simp only [true_iff] at hspec
    rw [if_pos hspec]
    simp [PracticalBFT.candidate, PracticalBFT.leader, PracticalBFT.reset_round,
      create_next_block_fst]

/-! ## Concrete fixtures used by witnesses and counterexamples -/

/-- A freshly constructed chain: just the genesis block. -/
def gChain : Blockchain := Blockchain.init [] [] 2

/-- The unmined draft of the next block on the genesis chain. -/
def draftOne : Block := (gChain.create_next_block "1.0" (some []) (some "v1")).2

/-- The draft with its hash filled in, as PoS/DPoS/PBFT finalize blocks. -/
def blockOne : Block := { draftOne with hash := some draftOne.compute_hash }

/-- The two-block chain obtained by admitting `blockOne`. -/
def chainTwo : Blockchain := (gChain.add_block blockOne).1

/-- Seven distinct validator addresses. -/
def sevenNodes : List String := ["n1", "n2", "n3", "n4", "n5", "n6", "n7"]

/-- A chain whose only block has a `None` hash.  The `Blockchain`
constructor accepts any block list; only an empty list is replaced by the
genesis block, so this value is constructible in the source. -/
def noHashChain : Blockchain :=
  Blockchain.init
    [{ index := 0, timestamp := "0.0", transactions := [], previous_hash := "x",
       nonce := 0, validator := none, hash := none }] [] 2

/-! ## General helper lemmas -/

/-- `add_block` either rejects (unchanged chain, `false`) or appends the
candidate (`true`). -/
theorem add_block_cases (c : Blockchain) (b : Block) :
    c.add_block b = (c, false) ∨
    c.add_block b = ({ c with chain := c.chain ++ [b] }, true) := by
  unfold Blockchain.add_block
  split_ifs <;> simp

/-- The result/chain dichotomy of `add_block`, phrased on projections. -/
theorem add_block_dichotomy (c : Blockchain) (b : Block) :
    ((c.add_block b).2 = true ∧ ∃ x, (c.add_block b).1.chain = c.chain ++ [x]) ∨
    ((c.add_block b).2 = false ∧ (c.add_block b).1.chain = c.chain) := by
  rcases add_block_cases c b with h | h <;> rw [h]
  · exact Or.inr ⟨rfl, rfl⟩
  · exact Or.inl ⟨rfl, b, rfl⟩

/-! ## Claims -/

/-- **C2**.  For every chain and block, `add_block` returns `false` and
leaves the height (and block list) unchanged whenever the block's
`previous_hash` differs from the latest block's hash, or its hash is
absent, or its hash differs from recomputation; otherwise it appends the
block, returns `true`, and the height grows by exactly 1. -/
theorem add_block_admission_gate (c : Blockchain) (b : Block)
    (hne : c.chain ≠ []) :
    ((some b.previous_hash ≠ c.latest_block.hash ∨ b.hash = none ∨
        b.hash ≠ some b.compute_hash) →
      c.add_block b = (c, false)) ∧
    ((some b.previous_hash = c.latest_block.hash ∧ b.hash ≠ none ∧
        b.hash = some b.compute_hash) →
      (c.add_block b).2 = true ∧
      (c.add_block b).1.height = c.height + 1 ∧
      (c.add_block b).1.chain = c.chain ++ [b]) := by
  constructor
  · intro h
    unfold Blockchain.add_block
    split_ifs with g1 g2 g3
    any_goals rfl
    rcases h with h | h | h
    · exact absurd h g1
    · exact absurd h g2
    · exact absurd h g3
  · rintro ⟨h1, h2, h3⟩
    unfold Blockchain.add_block
    rw [if_neg (not_not_intro h1), if_neg (by simp [h3]), if_neg (not_not_intro h3)]
    exact ⟨rfl, by simp [Blockchain.height], rfl⟩

/-- Witness for C2: the concrete block `blockOne` passes the gate on the
genesis chain. -/
theorem add_block_admission_gate_witness :
    (gChain.add_block blockOne).2 = true ∧
    (gChain.add_block blockOne).1.height = gChain.height + 1 ∧
    (gChain.add_block blockOne).1.chain = gChain.chain ++ [blockOne] :=
  (add_block_admission_gate gChain blockOne (by decide)).2
    ⟨by decide, by decide, by decide⟩

/-- **C6**.  Whenever `mine(d)` returns, the returned hash starts with at
least `d` `'0'` characters and is stored in the block's `hash` field; for
`d = 0` the loop returns on the very first check, leaving the nonce (and
every other field except `hash`) untouched. -/
theorem mine_difficulty_bound :
    (∀ (fuel difficulty : Nat) (b b' : Block) (h : String),
       Block.mine fuel difficulty b = some (b', h) →
       (List.replicate difficulty '0').isPrefixOf h.data = true ∧
       b'.hash = some h) ∧
    (∀ (fuel : Nat) (b : Block),
       Block.mine (fuel + 1) 0 b =
         some ({ b with hash := some b.compute_hash }, b.compute_hash)) := by
  constructor
  · intro fuel difficulty b b' h hm
    induction fuel generalizing b with
    | zero => simp [Block.mine] at hm
    | succ n ih =>
      simp only [Block.mine] at hm
      split at hm
      · rename_i hp
        cases hm
        exact ⟨hp, rfl⟩
      · exact ih _ hm
  · intro fuel b
    simp [Block.mine, List.isPrefixOf]

/-- Witness for C6: mining the concrete draft at difficulty 0 returns at
once with the stored hash. -/
theorem mine_difficulty_bound_witness :
    (List.replicate 0 '0').isPrefixOf draftOne.compute_hash.data = true ∧
    ({ draftOne with hash := some draftOne.compute_hash } : Block).hash =
      some draftOne.compute_hash :=
  mine_difficulty_bound.1 1 0 draftOne _ _ (mine_difficulty_bound.2 0 draftOne)

/-- The candidate used for C9: its `index` field is 5, although the next
index "should" be 1, yet its linkage and hash are consistent. -/
def blockFive : Block :=
  let d : Block := { draftOne with index := 5 }
  { d with hash := some d.compute_hash }

/-- **C9**.  `add_block` never inspects the candidate's `index`: the
concrete block `blockFive`, whose index 5 differs from the chain height 1,
is still admitted because its `previous_hash` matches the latest hash and
its stored hash matches recomputation. -/
theorem add_block_ignores_index :
    blockFive.index ≠ (gChain.height : Int) ∧
    some blockFive.previous_hash = gChain.latest_block.hash ∧
    blockFive.hash = some blockFive.compute_hash ∧
    (gChain.add_block blockFive).2 = true ∧
    (gChain.add_block blockFive).1.chain = gChain.chain ++ [blockFive] := by
  refine ⟨by decide, by decide, by decide, by decide, by decide⟩

/-- **C10**.  The `run_round` of PoS, DPoS and PBFT never reads the `nodes`
argument: two calls differing only in it produce identical protocol
state, chain, and result. -/
theorem run_round_ignores_nodes_arg :
    (∀ (p : ProofOfStake) (pick : Nat) (now : String) (bc : Blockchain)
       (txs : List Transaction) (nodes1 nodes2 : List String),
       p.run_round pick now bc txs nodes1 = p.run_round pick now bc txs nodes2) ∧
    (∀ (p : DelegatedProofOfStake) (now : String) (bc : Blockchain)
       (txs : List Transaction) (nodes1 nodes2 : List String),
       p.run_round now bc txs nodes1 = p.run_round now bc txs nodes2) ∧
    (∀ (p : PracticalBFT) (now : String) (bc : Blockchain)
       (txs : List Transaction) (nodes1 nodes2 : List String),
       p.run_round now bc txs nodes1 = p.run_round now bc txs nodes2) :=
  ⟨fun _ _ _ _ _ _ _ => rfl, fun _ _ _ _ _ _ => rfl, fun _ _ _ _ _ _ => rfl⟩

/-- **C4**.  PBFT construction fails iff `f > floor((n - 1) / 3)` (Python
floor division, so `n = 0` always fails); in particular `n = 7, f = 3`
fails and `n = 7, f = 2` succeeds with quorum 5; every successfully
constructed instance has quorum `2 f + 1`. -/
theorem pbft_construction_bound :
    (∀ (ns : List String) (f : Nat) (byz : List String),
       (∃ e, PracticalBFT.init ns f byz = Except.error e) ↔
         ((ns.length : Int) - 1).fdiv 3 < (f : Int)) ∧
    (∀ byz, ∃ e, PracticalBFT.init sevenNodes 3 byz = Except.error e) ∧
    (∀ byz, ∃ p, PracticalBFT.init sevenNodes 2 byz = Except.ok p ∧ p.quorum = 5) ∧
    (∀ (ns : List String) (f : Nat) (byz : List String) (p : PracticalBFT),
       PracticalBFT.init ns f byz = Except.ok p → p.quorum = 2 * f + 1) := by
  have herr : ∀ (ns : List String) (f : Nat) (byz : List String),
      ((ns.length : Int) - 1).fdiv 3 < (f : Int) →
      PracticalBFT.init ns f byz =
        Except.error "PBFT tolerates at most f=floor((n-1)/3) Byzantine nodes." := by
    intro ns f byz h
    unfold PracticalBFT.init
    rw [if_pos h]
  refine ⟨fun ns f byz => ⟨fun he => ?_, fun h => ⟨_, herr ns f byz h⟩⟩,
          fun byz => ⟨_, herr sevenNodes 3 byz (by decide)⟩,
          fun byz => ?_,
          fun ns f byz p hp => ?_⟩
  · obtain ⟨e, he⟩ := he
    by_contra hlt
    unfold PracticalBFT.init at he
    rw [if_neg hlt] at he
    exact Except.noConfusion he
  · unfold PracticalBFT.init
    rw [if_neg (by decide)]
    exact ⟨_, rfl, rfl⟩
  · unfold PracticalBFT.init at hp
    split_ifs at hp
    cases hp
    rfl

/-- Witness for C4: the concrete construction with seven validators and
`f = 2` succeeds and its quorum is `2 * 2 + 1`. -/
theorem pbft_construction_bound_witness :
    ∃ p, PracticalBFT.init sevenNodes 2 ["n1", "n5"] = Except.ok p ∧
      p.quorum = 2 * 2 + 1 :=
  ⟨_, rfl, pbft_construction_bound.2.2.2 sevenNodes 2 ["n1", "n5"] _ rfl⟩

/-- **C1**.  One `run_round` call of any protocol either appends exactly
one block with `success = true` or leaves the block sequence unchanged
with `success = false` (for PoW, among the calls whose mining loop
terminates). -/
theorem consensus_round_atomicity :
    (∀ (p : ProofOfWork) (fuel pick : Nat) (now : String) (bc : Blockchain)
       (txs : List Transaction) (ns : List String) (bc' : Blockchain)
       (r : ConsensusResult), bc.chain ≠ [] →
       p.run_round fuel pick now bc txs ns = some (bc', r) →
       (r.success = true ∧ ∃ b, bc'.chain = bc.chain ++ [b]) ∨
       (r.success = false ∧ bc'.chain = bc.chain)) ∧
    (∀ (p : ProofOfStake) (pick : Nat) (now : String) (bc : Blockchain)
       (txs : List Transaction) (ns : List String), bc.chain ≠ [] →
       ((p.run_round pick now bc txs ns).2.2.success = true ∧
          ∃ b, (p.run_round pick now bc txs ns).2.1.chain = bc.chain ++ [b]) ∨
       ((p.run_round pick now bc txs ns).2.2.success = false ∧
          (p.run_round pick now bc txs ns).2.1.chain = bc.chain)) ∧
    (∀ (p : DelegatedProofOfStake) (now : String) (bc : Blockchain)
       (txs : List Transaction) (ns : List String), bc.chain ≠ [] →
       ((p.run_round now bc txs ns).2.2.success = true ∧
          ∃ b, (p.run_round now bc txs ns).2.1.chain = bc.chain ++ [b]) ∨
       ((p.run_round now bc txs ns).2.2.success = false ∧
          (p.run_round now bc txs ns).2.1.chain = bc.chain)) ∧
    (∀ (p : PracticalBFT) (now : String) (bc : Blockchain)
       (txs : List Transaction) (ns : List String), bc.chain ≠ [] →
       ((p.run_round now bc txs ns).2.2.success = true ∧
          ∃ b, (p.run_round now bc txs ns).2.1.chain = bc.chain ++ [b]) ∨
       ((p.run_round now bc txs ns).2.2.success = false ∧
          (p.run_round now bc txs ns).2.1.chain = bc.chain)) := by
  refine ⟨?_, ?_, ?_, ?_⟩
  · intro p fuel pick now bc txs ns bc' r hne hrun
    unfold ProofOfWork.run_round at hrun
    split_ifs at hrun with hempty
    · cases hrun
      exact Or.inr ⟨rfl, rfl⟩
    · simp only [create_next_block_fst] at hrun
      rcases hm : Block.mine fuel p.difficulty
          (bc.create_next_block now (some txs) (some (ns.getD (pick % ns.length) ""))).2
        with _ | ⟨mined, hsh⟩ <;> rw [hm] at hrun
      · exact Option.noConfusion hrun
      · cases hrun
        rcases add_block_dichotomy bc mined with ⟨h1, x, h2⟩ | ⟨h1, h2⟩
        · exact Or.inl ⟨h1, x, h2⟩
        · exact Or.inr ⟨h1, h2⟩
  · intro p pick now bc txs ns hne
    unfold ProofOfStake.run_round
    split_ifs with hempty
    · exact Or.inr ⟨rfl, rfl⟩
    · exact add_block_dichotomy bc _
  · intro p now bc txs ns hne
    unfold DelegatedProofOfStake.run_round
    rcases hcd : p.current_delegate with _ | delegate
    · exact Or.inr ⟨rfl, rfl⟩
    · exact add_block_dichotomy bc _
  · intro p now bc txs ns hne
    unfold PracticalBFT.run_round
    simp only [create_next_block_fst]
    split_ifs with hcons
    · exact add_block_dichotomy bc _
    · exact Or.inr ⟨rfl, rfl⟩

/-- Witness for C1: the DPoS conjunct at a concrete instance on the genesis
chain. -/
theorem consensus_round_atomicity_witness :
    let p : DelegatedProofOfStake :=
      { candidates := [], num_delegates := 3, active_delegates := ["d1"], round_index := 0 }
    ((p.run_round "1.0" gChain [] []).2.2.success = true ∧
       ∃ b, (p.run_round "1.0" gChain [] []).2.1.chain = gChain.chain ++ [b]) ∨
    ((p.run_round "1.0" gChain [] []).2.2.success = false ∧
       (p.run_round "1.0" gChain [] []).2.1.chain = gChain.chain) :=
  consensus_round_atomicity.2.2.1
    { candidates := [], num_delegates := 3, active_delegates := ["d1"], round_index := 0 }
    "1.0" gChain [] [] (by decide)

/-! ## C7: DPoS round-robin -/

/-- A DPoS instance with no elected delegates, as constructed from an empty
vote tally. -/
def emptyDpos : DelegatedProofOfStake :=
  { candidates := [], num_delegates := 3, active_delegates := [], round_index := 0 }

/-- **C7 counterexample**: on an instance with no active delegates the
round fails early and `_round_index` is NOT incremented — it stays 0 —
refuting the claim that it increments by exactly 1 after every call. -/
theorem dpos_empty_round_index_unchanged :
    (emptyDpos.run_round "1.0" gChain [] []).1.round_index = 0 ∧
    (emptyDpos.run_round "1.0" gChain [] []).2.2.success = false := by
  exact ⟨rfl, rfl⟩

/-- State evolution of one DPoS round with at least one active delegate:
the proposer is `active_delegates[round_index % k]`, the cursor advances
by exactly 1 (whether or not admission succeeded), and the delegate order
is unchanged. -/
theorem dpos_run_round_state (p : DelegatedProofOfStake) (now : String)
    (bc : Blockchain) (txs : List Transaction) (ns : List String)
    (h : p.active_delegates ≠ []) :
    (p.run_round now bc txs ns).2.2.proposer =
      some (p.active_delegates.getD (p.round_index % p.active_delegates.length) "") ∧
    (p.run_round now bc txs ns).1.round_index = p.round_index + 1 ∧
    (p.run_round now bc txs ns).1.active_delegates = p.active_delegates := by
  unfold DelegatedProofOfStake.run_round DelegatedProofOfStake.current_delegate
  rw [if_neg (by simpa using h)]
  refine ⟨rfl, rfl, ?_⟩
  dsimp only
  split_ifs <;> rfl

/-- The proposers reported by `count` consecutive DPoS rounds, threading
protocol state and chain; the clock, transaction batch, and node list may
vary per round (`t` indexes the streams). -/
def dposProposerSeq (nows : Nat → String) (txss : Nat → List Transaction)
    (nss : Nat → List String) :
    DelegatedProofOfStake → Blockchain → Nat → Nat → List (Option String)
  | _, _, _, 0 => []
  | p, bc, t, count + 1 =>
    let out := p.run_round (nows t) bc (txss t) (nss t)
    out.2.2.proposer :: dposProposerSeq nows txss nss out.1 out.2.1 (t + 1) count

/-- Closed form of the proposer sequence: round `j` proposes the delegate
at `(round_index + j) % k`. -/
theorem dposProposerSeq_formula (nows : Nat → String)
    (txss : Nat → List Transaction) (nss : Nat → List String) (count : Nat) :
    ∀ (p : DelegatedProofOfStake) (bc : Blockchain) (t : Nat),
      p.active_delegates ≠ [] →
      dposProposerSeq nows txss nss p bc t count =
        (List.range count).map (fun j =>
          some (p.active_delegates.getD
            ((p.round_index + j) % p.active_delegates.length) "")) := by
  induction count with
  | zero => intro p bc t h; rfl
  | succ n ih =>
    intro p bc t h
    obtain ⟨h1, h2, h3⟩ := dpos_run_round_state p (nows t) bc (txss t) (nss t) h
    rw [dposProposerSeq, List.range_succ_eq_map, List.map_cons, List.map_map]
    refine congrArg₂ _ (by rw [h1, Nat.add_zero]) ?_
    rw [ih _ _ _ (h3 ▸ h)]
    rw [h2, h3]
    refine List.map_congr_left fun j hj => ?_
    have hadd : p.round_index + 1 + j = p.round_index + Nat.succ j := by omega
    simp [Function.comp, hadd]

/-- **C7** (amended).  Whenever at least one delegate is active: the
round's proposer is the delegate at `round_index mod k` in the fixed
order, `_round_index` advances by exactly 1 after the call regardless of
admission success, and — the delegate order being duplicate-free, as
election from distinct dict keys guarantees — `k` consecutive rounds
starting anywhere propose every delegate exactly once.  (When no delegate
is active the call fails without advancing `_round_index`, the case the
counterexample exhibits.) -/
theorem dpos_round_robin :
    (∀ (p : DelegatedProofOfStake) (now : String) (bc : Blockchain)
       (txs : List Transaction) (ns : List String), p.active_delegates ≠ [] →
       (p.run_round now bc txs ns).2.2.proposer =
         some (p.active_delegates.getD
           (p.round_index % p.active_delegates.length) "") ∧
       (p.run_round now bc txs ns).1.round_index = p.round_index + 1) ∧
    (∀ (p : DelegatedProofOfStake) (bc : Blockchain) (nows : Nat → String)
       (txss : Nat → List Transaction) (nss : Nat → List String) (t : Nat),
       p.active_delegates ≠ [] →
       (dposProposerSeq nows txss nss p bc t p.active_delegates.length).Perm
         (p.active_delegates.map some)) := by
  constructor
  · intro p now bc txs ns h
    obtain ⟨h1, h2, _⟩ := dpos_run_round_state p now bc txs ns h
    exact ⟨h1, h2⟩
  · intro p bc nows txss nss t h
    rw [dposProposerSeq_formula nows txss nss _ p bc t h]
    have hk : 0 < p.active_delegates.length := List.length_pos.mpr h
    have hrot :
        (List.range p.active_delegates.length).map (fun j =>
            some (p.active_delegates.getD
              ((p.round_index + j) % p.active_delegates.length) "")) =
          (p.active_delegates.rotate
            (p.round_index % p.active_delegates.length)).map some := by
      refine List.ext_getElem (by simp) ?_
      intro n h1 h2
      simp only [List.getElem_map, List.getElem_range, List.getElem_rotate]
      congr 1
      rw [List.getD_eq_getElem]
      · congr 1
        conv_lhs => rw [← Nat.mod_add_mod, Nat.add_comm]
      · exact Nat.mod_lt _ hk
    rw [hrot]
    exact (List.rotate_perm _ _).map some

/-- Witness for C7: three delegates in a fixed order; one round proposes
the cursor's delegate and advances the cursor, and three consecutive
rounds propose all three delegates exactly once. -/
theorem dpos_round_robin_witness :
    (let p : DelegatedProofOfStake :=
       { candidates := [], num_delegates := 3,
         active_delegates := ["b", "a", "c"], round_index := 0 }
     (p.run_round "1.0" gChain [] []).2.2.proposer = some "b" ∧
     (p.run_round "1.0" gChain [] []).1.round_index = 0 + 1) ∧
    (dposProposerSeq (fun _ => "1.0") (fun _ => []) (fun _ => [])
        { candidates := [], num_delegates := 3,
          active_delegates := ["b", "a", "c"], round_index := 0 }
        gChain 0 3).Perm [some "b", some "a", some "c"] :=
  ⟨dpos_round_robin.1
     { candidates := [], num_delegates := 3,
       active_delegates := ["b", "a", "c"], round_index := 0 }
     "1.0" gChain [] [] (by decide),
   dpos_round_robin.2
     { candidates := [], num_delegates := 3,
       active_delegates := ["b", "a", "c"], round_index := 0 }
     gChain (fun _ => "1.0") (fun _ => []) (fun _ => []) 0 (by decide)⟩

/-! ## C3: chain validity -/

/-- `latest_block` is the entry at index `length - 1`. -/
theorem latest_block_eq_getD (c : Blockchain) :
    c.latest_block = c.chain.getD (c.chain.length - 1) Block.genesis := by
  unfold Blockchain.latest_block
  rw [List.getLastD_eq_getLast?, List.getLast?_eq_getElem?, List.getD_eq_getElem?_getD]

/-- A successful `add_block` implies the two gate equalities. -/
theorem add_block_true_elim (c : Blockchain) (b : Block)
    (h : (c.add_block b).2 = true) :
    c.latest_block.hash = some b.previous_hash ∧
    b.hash = some b.compute_hash := by
  unfold Blockchain.add_block at h
  split_ifs at h with g1 g2 g3
  exact ⟨(not_not.mp g1).symm, not_not.mp g3⟩

/-- The per-index check run by `is_valid`. -/
def chainCheck (ch : List Block) (i : Nat) : Bool :=
  let current := ch.getD i Block.genesis
  let previous := ch.getD (i - 1) Block.genesis
  (current.hash == some current.compute_hash) &&
  (previous.hash == some current.previous_hash)

/-- `is_valid` as the conjunction of `chainCheck` over all indices. -/
theorem is_valid_eq_all (c : Blockchain) :
    c.is_valid = (List.range' 1 (c.chain.length - 1)).all (chainCheck c.chain) := rfl

/-- **C3 counterexample**: `chainTwo` (genesis plus an admitted block) is
valid; mutating the genesis block's nonce in place changes its recomputed
hash, yet `is_valid` still returns `true`, because the loop starts at
index 1 and never recomputes the hash of block 0.  This refutes the claim
that mutating the nonce of ANY historical block, including the genesis
block at index 0, makes `is_valid` return `false`. -/
theorem genesis_mutation_undetected :
    chainTwo.is_valid = true ∧
    ({ Block.genesis with nonce := 1 } : Block).compute_hash ≠
      Block.genesis.compute_hash ∧
    ({ chainTwo with chain :=
        chainTwo.chain.set 0 { Block.genesis with nonce := 1 } } :
      Blockchain).is_valid = true := by
  refine ⟨by decide, by decide, by decide⟩

/-- **C3** (amended).  A valid chain stays valid after any block accepted
by `add_block` is appended; and mutating a historical block at index
`i ≥ 1` in place (keeping its stored hash, e.g. changing its nonce or a
transaction) makes `is_valid` return `false` whenever the mutation changes
the block's recomputed hash.  Mutations of the genesis block at index 0
are not detected (see the counterexample). -/
theorem chain_validity_monotone_tamper_evident :
    (∀ (c : Blockchain) (b : Block), c.chain ≠ [] →
       c.is_valid = true → (c.add_block b).2 = true →
       (c.add_block b).1.is_valid = true) ∧
    (∀ (c : Blockchain) (i : Nat) (b' : Block),
       1 ≤ i → i < c.chain.length → c.is_valid = true →
       b'.hash = (c.chain.getD i Block.genesis).hash →
       b'.compute_hash ≠ (c.chain.getD i Block.genesis).compute_hash →
       ({ c with chain := c.chain.set i b' } : Blockchain).is_valid = false) := by
  constructor
  · intro c b hne hvalid hadd
    obtain ⟨hlink, hhash⟩ := add_block_true_elim c b hadd
    rcases add_block_cases c b with hc | hc
    · rw [hc] at hadd
      exact absurd hadd (by simp)
    · rw [hc]
      have hlen : c.chain.length - 1 + 1 = c.chain.length :=
        Nat.succ_pred_eq_of_pos (List.length_pos.mpr hne)
    -- the index list for the extended chain is the old one plus its length
      rw [is_valid_eq_all] at hvalid ⊢
      simp only [List.length_append, List.length_cons, List.length_nil]
      have hidx : c.chain.length + 1 - 1 = (c.chain.length - 1) + 1 := by omega
      rw [hidx, List.range'_concat, List.all_append, Bool.and_eq_true]
      refine ⟨?_, ?_⟩
      · rw [List.all_eq_true] at hvalid ⊢
        intro i hi
        obtain ⟨hi1, hi2⟩ := List.mem_range'_1.mp hi
        have hilt : i < c.chain.length := by omega
        have : chainCheck (c.chain ++ [b]) i = chainCheck c.chain i := by
          unfold chainCheck
          rw [List.getD_append _ _ _ _ hilt, List.getD_append _ _ _ _ (by omega)]
        rw [this]
        exact hvalid i hi
      · have hcur : (c.chain ++ [b]).getD (1 + 1 * (c.chain.length - 1)) Block.genesis = b := by
          rw [Nat.one_mul, Nat.add_comm, hlen,
              List.getD_append_right _ _ _ _ (Nat.le_refl _), Nat.sub_self]
          rfl
        have hprev : (c.chain ++ [b]).getD (1 + 1 * (c.chain.length - 1) - 1) Block.genesis =
            c.chain.getD (c.chain.length - 1) Block.genesis := by
          rw [Nat.one_mul, Nat.add_comm, hlen]
          exact List.getD_append _ _ _ _ (by omega)
        simp only [List.all_cons, List.all_nil, Bool.and_true]
        unfold chainCheck
        rw [hcur, hprev, ← latest_block_eq_getD]
        simp [hhash, hlink]
  · intro c i b' hi1 hi2 hvalid hkeep hmut
    rw [is_valid_eq_all] at hvalid ⊢
    simp only [List.length_set]
    have hmem : i ∈ List.range' 1 (c.chain.length - 1) :=
      List.mem_range'_1.mpr ⟨hi1, by omega⟩
    have horig := (List.all_eq_true.mp hvalid) i hmem
    unfold chainCheck at horig
    simp only [Bool.and_eq_true, beq_iff_eq] at horig
    have horig1 : (c.chain.getD i Block.genesis).hash =
        some (c.chain.getD i Block.genesis).compute_hash := horig.1
    refine List.all_eq_false.mpr ⟨i, hmem, ?_⟩
    unfold chainCheck
    have hset : (c.chain.set i b').getD i Block.genesis = b' := by
      rw [List.getD_eq_getElem _ _ (by rw [List.length_set]; omega),
          List.getElem_set, if_pos rfl]
    rw [hset]
    intro hcontra
    simp only [Bool.and_eq_true, beq_iff_eq] at hcontra
    have h1' : b'.hash = some b'.compute_hash := hcontra.1
    rw [hkeep, horig1] at h1'
    exact hmut (Option.some.injEq .. ▸ h1').symm

/-- Witness for C3: appending the admitted `blockOne` to the valid genesis
chain keeps the chain valid, and mutating `blockOne`'s nonce inside
`chainTwo` (stored hash kept) makes `is_valid` return `false`. -/
theorem chain_validity_monotone_tamper_evident_witness :
    (gChain.add_block blockOne).1.is_valid = true ∧
    ({ chainTwo with chain :=
        chainTwo.chain.set 1 { blockOne with nonce := 7 } } :
      Blockchain).is_valid = false :=
  ⟨chain_validity_monotone_tamper_evident.1 gChain blockOne (by decide)
     (by decide) (by decide),
   chain_validity_monotone_tamper_evident.2 chainTwo 1 { blockOne with nonce := 7 }
     (by decide) (by decide) (by decide) (by decide) (by decide)⟩

/-! ## C8: presence of the block field in results -/

/-- **C8 counterexample**: on a (constructible) chain whose only block has
a `None` hash, a PoW round fails admission yet the returned result carries
the mined block: `success = false` with `block` present, refuting "every
result with success=false carries no block". -/
theorem pow_failure_carries_block :
    (ProofOfWork.run_round ⟨0⟩ 1 0 "1.0" noHashChain [] ["m1"]).map
        (fun out => (out.2.success, out.2.block.isSome)) = some (false, true) := by
  decide

/-- **C8** (amended).  Every result with `success = true` carries the
block, in all four protocols; and a result carries a block exactly when a
candidate block was built: PoW, PoS and DPoS attach the candidate
whenever a miner/validator/delegate was available — even when admission
fails and `success = false` — and PBFT attaches it exactly when the
commit quorum was reached. -/
theorem result_block_presence :
    (∀ (p : ProofOfWork) (fuel pick : Nat) (now : String) (bc : Blockchain)
       (txs : List Transaction) (ns : List String) (bc' : Blockchain)
       (r : ConsensusResult),
       p.run_round fuel pick now bc txs ns = some (bc', r) →
       r.block.isSome = !ns.isEmpty) ∧
    (∀ (p : ProofOfStake) (pick : Nat) (now : String) (bc : Blockchain)
       (txs : List Transaction) (ns : List String),
       (p.run_round pick now bc txs ns).2.2.block.isSome = !p.validators.isEmpty) ∧
    (∀ (p : DelegatedProofOfStake) (now : String) (bc : Blockchain)
       (txs : List Transaction) (ns : List String),
       (p.run_round now bc txs ns).2.2.block.isSome = !p.active_delegates.isEmpty) ∧
    (∀ (p : PracticalBFT) (now : String) (bc : Blockchain)
       (txs : List Transaction) (ns : List String),
       (p.run_round now bc txs ns).2.2.block.isSome = p.consensus_check) ∧
    (∀ (p : ProofOfWork) (fuel pick : Nat) (now : String) (bc : Blockchain)
       (txs : List Transaction) (ns : List String) (bc' : Blockchain)
       (r : ConsensusResult),
       p.run_round fuel pick now bc txs ns = some (bc', r) →
       r.success = true → r.block.isSome = true) ∧
    (∀ (p : ProofOfStake) (pick : Nat) (now : String) (bc : Blockchain)
       (txs : List Transaction) (ns : List String),
       (p.run_round pick now bc txs ns).2.2.success = true →
       (p.run_round pick now bc txs ns).2.2.block.isSome = true) ∧
    (∀ (p : DelegatedProofOfStake) (now : String) (bc : Blockchain)
       (txs : List Transaction) (ns : List String),
       (p.run_round now bc txs ns).2.2.success = true →
       (p.run_round now bc txs ns).2.2.block.isSome = true) ∧
    (∀ (p : PracticalBFT) (now : String) (bc : Blockchain)
       (txs : List Transaction) (ns : List String),
       (p.run_round now bc txs ns).2.2.success = true →
       (p.run_round now bc txs ns).2.2.block.isSome = true) := by
  refine ⟨?_, ?_, ?_, ?_, ?_, ?_, ?_, ?_⟩
  · intro p fuel pick now bc txs ns bc' r hrun
    unfold ProofOfWork.run_round at hrun
    split_ifs at hrun with hempty
    · cases hrun
      simp [hempty]
    · simp only [create_next_block_fst] at hrun
      rcases hm : Block.mine fuel p.difficulty
          (bc.create_next_block now (some txs) (some (ns.getD (pick % ns.length) ""))).2
        with _ | ⟨mined, hsh⟩ <;> rw [hm] at hrun
      · exact Option.noConfusion hrun
      · cases hrun
        simp [hempty]
  · intro p pick now bc txs ns
    unfold ProofOfStake.run_round
    split_ifs with hempty <;> simp [hempty]
  · intro p now bc txs ns
    unfold DelegatedProofOfStake.run_round
    rcases hcd : p.current_delegate with _ | d <;>
      unfold DelegatedProofOfStake.current_delegate at hcd <;>
      split_ifs at hcd with he <;> simp [he]
  · intro p now bc txs ns
    rw [(pbft_run_round_result p now bc txs ns).1]
    cases hb : p.consensus_check <;> simp [hb]
  · intro p fuel pick now bc txs ns bc' r hrun hsucc
    unfold ProofOfWork.run_round at hrun
    split_ifs at hrun with hempty
    · cases hrun
      simp at hsucc
    · simp only [create_next_block_fst] at hrun
      rcases hm : Block.mine fuel p.difficulty
          (bc.create_next_block now (some txs) (some (ns.getD (pick % ns.length) ""))).2
        with _ | ⟨mined, hsh⟩ <;> rw [hm] at hrun
      · exact Option.noConfusion hrun
      · cases hrun
        rfl
  · intro p pick now bc txs ns hsucc
    unfold ProofOfStake.run_round at hsucc ⊢
    split_ifs at hsucc ⊢ with hempty
    rfl
  · intro p now bc txs ns hsucc
    unfold DelegatedProofOfStake.run_round at hsucc ⊢
    rcases hcd : p.current_delegate with _ | d
    · rw [hcd] at hsucc
      simp at hsucc
    · rfl
  · intro p now bc txs ns hsucc
    obtain ⟨hblock, hsuccEq, _, _⟩ := pbft_run_round_result p now bc txs ns
    rw [hsuccEq] at hsucc
    simp only [Bool.and_eq_true] at hsucc
    rw [hblock, if_pos hsucc.1]
    rfl

/-- Witness for C8: the PoW conjunct at a concrete successful round on the
genesis chain — one miner available, so the block is present. -/
theorem result_block_presence_witness :
    ∃ bc r, ProofOfWork.run_round ⟨0⟩ 1 0 "1.0" gChain [] ["m1"] = some (bc, r) ∧
      r.block.isSome = !(["m1"] : List String).isEmpty :=
  ⟨_, _, rfl, result_block_presence.1 ⟨0⟩ 1 0 "1.0" gChain [] ["m1"] _ _ rfl⟩

/-! ## C5: PBFT liveness with seven validators and two Byzantine nodes -/

/-- Splitting a list's length by a predicate. -/
theorem filter_length_split {α : Type _} (p : α → Bool) :
    ∀ l : List α,
      (l.filter p).length + (l.filter (fun a => !p a)).length = l.length := by
  intro l
  induction l with
  | nil => rfl
  | cons a t ih =>
    by_cases hpa : p a = true
    · simp [List.filter_cons, hpa]
      omega
    · have hpa' : p a = false := by revert hpa; cases p a <;> simp
      simp [List.filter_cons, hpa']
      omega

/-- Folding `setAdd` over fresh, duplicate-free senders appends them all. -/
theorem foldl_setAdd_append :
    ∀ (l init : List String), l.Nodup → (∀ x ∈ l, x ∉ init) →
      l.foldl setAdd init = init ++ l := by
  intro l
  induction l with
  | nil => intro init _ _; simp
  | cons a t ih =>
    intro init hnd hdis
    have ha : a ∉ init := hdis a (List.mem_cons_self a t)
    rw [List.foldl_cons,
        show setAdd init a = init ++ [a] from by unfold setAdd; rw [if_neg ha],
        ih (init ++ [a]) (List.nodup_cons.mp hnd).2 ?_]
    · simp
    · intro x hx hmem
      rcases List.mem_append.mp hmem with hmem | hmem
      · exact hdis x (List.mem_cons_of_mem a hx) hmem
      · rw [List.mem_singleton] at hmem
        exact (List.nodup_cons.mp hnd).1 (hmem ▸ hx)

/-- A duplicate-free sender list fills an empty received-set verbatim. -/
theorem foldl_setAdd_nil (l : List String) (h : l.Nodup) :
    l.foldl setAdd [] = l := by
  simpa using foldl_setAdd_append l [] h (by simp)

/-- The honest (non-Byzantine) nodes' addresses. -/
def honestAddrs (ns : List PBFTNode) : List String :=
  (ns.filter (fun n => !n.is_byzantine)).map PBFTNode.address

/-- Size of every node's received-PREPARE set after the broadcast. -/
def prepTally (p : PracticalBFT) : Nat :=
  ((honestAddrs p.pbft_nodes).foldl setAdd []).length

/-- The senders of COMMIT messages: honest nodes whose received-PREPARE
set reached the quorum. -/
def commitAddrs (p : PracticalBFT) : List String :=
  (p.pbft_nodes.filter (fun n =>
    !n.is_byzantine && decide (p.quorum ≤ prepTally p))).map PBFTNode.address

/-- Size of every node's received-COMMIT set after the broadcast. -/
def commitTally (p : PracticalBFT) : Nat :=
  ((commitAddrs p).foldl setAdd []).length

/-- The finalization tally: honest nodes whose received-COMMIT set reached
the quorum. -/
def finalTally (p : PracticalBFT) : Nat :=
  (p.pbft_nodes.filter (fun n =>
    decide (p.quorum ≤ commitTally p) && !n.is_byzantine)).length

/-- `consensus_check` in closed form over the original node table. -/
theorem consensus_check_closed (p : PracticalBFT) :
    p.consensus_check = decide (p.quorum ≤ finalTally p) := by
  unfold PracticalBFT.consensus_check finalTally commitTally commitAddrs prepTally
    honestAddrs
  simp only [distributePrepares_phase_prepare, phase_commit_fst,
    distributeCommits_phase_commit, PracticalBFT.reset_round, PracticalBFT.quorum,
    List.filter_map, List.map_map, List.length_map, Function.comp_def,
    committedCount, apply_ite, ite_self]

/-- With seven distinct validators of which exactly two are Byzantine, the
five honest nodes carry both phases past the quorum of five, so the check
succeeds. -/
theorem consensus_check_of_seven_two (p : PracticalBFT)
    (hf : p.byzantine_count = 2) (hlen : p.pbft_nodes.length = 7)
    (hnd : (p.pbft_nodes.map PBFTNode.address).Nodup)
    (hbyz : (p.pbft_nodes.filter (fun n => n.is_byzantine)).length = 2) :
    p.consensus_check = true := by
  have hq : p.quorum = 5 := by unfold PracticalBFT.quorum; rw [hf]
  have hhon : (p.pbft_nodes.filter (fun n => !n.is_byzantine)).length = 5 := by
    have hsplit := filter_length_split (fun n => n.is_byzantine) p.pbft_nodes
    rw [hbyz, hlen] at hsplit
    omega
  have hhnd : (honestAddrs p.pbft_nodes).Nodup :=
    List.Nodup.sublist ((List.filter_sublist _).map PBFTNode.address) hnd
  have hlenH : (honestAddrs p.pbft_nodes).length = 5 := by
    unfold honestAddrs
    rw [List.length_map]
    exact hhon
  have hPS : (honestAddrs p.pbft_nodes).foldl setAdd [] = honestAddrs p.pbft_nodes :=
    foldl_setAdd_nil _ hhnd
  have hprep : prepTally p = 5 := by
    unfold prepTally
    rw [hPS, hlenH]
  have hcs : commitAddrs p = honestAddrs p.pbft_nodes := by
    unfold commitAddrs honestAddrs
    have hpred : (fun (n : PBFTNode) =>
        !n.is_byzantine && decide (p.quorum ≤ prepTally p)) =
        (fun (n : PBFTNode) => !n.is_byzantine) := by
      funext n
      rw [hq, hprep]
      simp
    rw [hpred]
  have hct : commitTally p = 5 := by
    unfold commitTally
    rw [hcs, hPS, hlenH]
  have hfin : finalTally p = 5 := by
    unfold finalTally
    have hpred : (fun (n : PBFTNode) =>
        decide (p.quorum ≤ commitTally p) && !n.is_byzantine) =
        (fun (n : PBFTNode) => !n.is_byzantine) := by
      funext n
      rw [hq, hct]
      simp
    rw [hpred, hhon]
  rw [consensus_check_closed, hq, hfin]
  rfl

/-- A draft built by `create_next_block` whose hash is then filled with its
own recomputation always passes the admission gate, provided the latest
block has a stored hash. -/
theorem add_block_computed (bc : Blockchain) (now : String)
    (txs : List Transaction) (v : Option String) (hsh : String)
    (hlatest : bc.latest_block.hash = some hsh) :
    (bc.add_block
      { (bc.create_next_block now (some txs) v).2 with
        hash := some (bc.create_next_block now (some txs) v).2.compute_hash }).2 =
      true := by
  have hso : ∀ s : String, strOr (some s) "" = s := by
    intro s
    simp only [strOr]
    split_ifs with he
    · exact he.symm
    · rfl
  have g1 : some ({ (bc.create_next_block now (some txs) v).2 with
      hash := some (bc.create_next_block now (some txs) v).2.compute_hash } :
        Block).previous_hash = bc.latest_block.hash := by
    show some (strOr bc.latest_block.hash "") = bc.latest_block.hash
    rw [hlatest, hso]
  have g3 : ({ (bc.create_next_block now (some txs) v).2 with
      hash := some (bc.create_next_block now (some txs) v).2.compute_hash } :
        Block).hash =
      some ({ (bc.create_next_block now (some txs) v).2 with
        hash := some (bc.create_next_block now (some txs) v).2.compute_hash } :
          Block).compute_hash := rfl
  unfold Blockchain.add_block
  rw [if_neg (not_not_intro g1), if_neg (by rw [g3]; simp), if_neg (not_not_intro g3)]

/-- **C5**.  For a PBFT instance in the state produced by construction with
seven distinct validators and `f = 2` (two nodes flagged Byzantine, which
only withhold messages; any view, any leftover per-round state — it is
reset at round start), every `run_round` on a chain whose latest block has
a non-null hash reaches consensus: `success = true`, `rounds = 3`, and the
candidate block is appended. -/
theorem pbft_liveness_seven_two (p : PracticalBFT) (now : String)
    (bc : Blockchain) (txs : List Transaction) (ns : List String) (hsh : String)
    (hf : p.byzantine_count = 2) (hlen : p.pbft_nodes.length = 7)
    (hnd : (p.pbft_nodes.map PBFTNode.address).Nodup)
    (hbyz : (p.pbft_nodes.filter (fun n => n.is_byzantine)).length = 2)
    (hne : bc.chain ≠ []) (hlatest : bc.latest_block.hash = some hsh) :
    (p.run_round now bc txs ns).2.2.success = true ∧
    (p.run_round now bc txs ns).2.2.rounds = 3 ∧
    (p.run_round now bc txs ns).2.1.chain = bc.chain ++ [p.candidate now bc txs] := by
  obtain ⟨hblock, hsucc, hrounds, hchain⟩ := pbft_run_round_result p now bc txs ns
  have hcheck := consensus_check_of_seven_two p hf hlen hnd hbyz
  have hadd : (bc.add_block (p.candidate now bc txs)).2 = true :=
    add_block_computed bc now txs (some p.leader) hsh hlatest
  refine ⟨by simp [hsucc, hcheck, hadd], hrounds, ?_⟩
  rw [hchain, if_pos hcheck]
  rcases add_block_cases bc (p.candidate now bc txs) with hc | hc
  · rw [hc] at hadd
    exact absurd hadd (by simp)
  · rw [hc]

/-- Witness for C5: the construction with seven concrete validators and
two Byzantine nodes, run on the genesis chain. -/
theorem pbft_liveness_seven_two_witness :
    ∃ p, PracticalBFT.init sevenNodes 2 ["n1", "n5"] = Except.ok p ∧
      ((p.run_round "1.0" gChain [] sevenNodes).2.2.success = true ∧
       (p.run_round "1.0" gChain [] sevenNodes).2.2.rounds = 3 ∧
       (p.run_round "1.0" gChain [] sevenNodes).2.1.chain =
         gChain.chain ++ [p.candidate "1.0" gChain []]) := by
  refine ⟨_, rfl, ?_⟩
  exact pbft_liveness_seven_two _ "1.0" gChain [] sevenNodes
    Block.genesis.compute_hash (by decide) (by decide) (by decide) (by decide)
    (by decide) rfl
